import Mathlib

set_option maxRecDepth 100000

/-!
Verification development for the MNIHL document-extraction service
(`main.py`).  The Python source is shallowly embedded: strings are
`List Char`, bytes are `List Nat` (each < 256), the oracle (the external
language-model call) is an explicit function argument, fallible code
returns `Except`.  Every definition mirrors a specific construct of
`main.py` or of the Python standard-library functions it calls.
-/

namespace MnihlApi

/-- Whitespace characters removed by Python `str.strip()` with no argument,
complete over the ASCII range: `\t \n \v \f \r`, the separator controls
`\x1c`-`\x1f`, and space.  (CPython additionally strips non-ASCII Unicode
whitespace such as U+0085 and U+00A0; those stay outside the modelled
alphabet.) -/
def isPyWs (c : Char) : Bool :=
  c = ' ' || c = '\t' || c = '\n' || c = '\r' || c = '\x0b' || c = '\x0c' ||
    c = '\x1c' || c = '\x1d' || c = '\x1e' || c = '\x1f'

/-- Python `str.strip()` on a list of characters: drop leading and trailing
whitespace. -/
def pyStrip (l : List Char) : List Char :=
  ((l.dropWhile isPyWs).reverse.dropWhile isPyWs).reverse

/-- Lower-casing of one character as done by Python `str.lower()` on the
ASCII range (codepoints 65-90 shift by 32; everything else unchanged). -/
def pyLowerChar (c : Char) : Char :=
  if 65 ≤ c.toNat ∧ c.toNat ≤ 90 then Char.ofNat (c.toNat + 32) else c

/-- Python `str.lower()` (ASCII range). -/
def pyLower (l : List Char) : List Char := l.map pyLowerChar

/-- Python `str.endswith(t)`. -/
def pyEndsWith (l t : List Char) : Bool := t.isSuffixOf l

/-- Python `str.split(sep)` for a one-character separator: the result is
always non-empty, and empty pieces are kept (`"a.".split "."` gives two
pieces, the second empty). -/
def pySplit (sep : Char) : List Char → List (List Char)
  | [] => [[]]
  | c :: rest =>
    match pySplit sep rest with
    | [] => [[c]]
    | h :: t => if c = sep then [] :: h :: t else (c :: h) :: t

/-- Python `parts[-1]` on the (never empty) result of `split`. -/
def pyLast (l : List (List Char)) : List Char :=
  match l.reverse with
  | [] => []
  | h :: _ => h

/-- Fuel-driven scan underlying `replaceAll`.  Each step consumes at least
one character of the subject (the pattern is non-empty in every use), so
fuel equal to the subject length is always sufficient. -/
def rAux (pat : List Char) : Nat → List Char → List Char
  | _, [] => []
  | 0, s => s
  | n + 1, c :: rest =>
    if pat.isPrefixOf (c :: rest) then rAux pat n ((c :: rest).drop pat.length)
    else c :: rAux pat n rest

/-- Python `str.replace(pat, "")`: delete every occurrence of `pat`,
scanning left to right over the original string; the text joined by a
deletion is not rescanned, exactly as CPython behaves. -/
def replaceAll (pat s : List Char) : List Char := rAux pat s.length s

theorem rAux_nil (pat : List Char) (n : Nat) : rAux pat n [] = [] := by
  cases n <;> rfl

theorem rAux_fuel (pat : List Char) (hp : pat ≠ []) :
    ∀ (bound : Nat) (s : List Char) (n : Nat), s.length ≤ bound → s.length ≤ n →
      rAux pat n s = rAux pat s.length s := by
  intro bound
  induction bound using Nat.strong_induction_on with
  | _ bound ih =>
    intro s n hb hn
    match s, n with
    | [], n => simp [rAux_nil]
    | c :: rest, 0 => simp at hn
    | c :: rest, n + 1 =>
      have hdrop : ((c :: rest).drop pat.length).length ≤ rest.length := by
        cases pat with
        | nil => exact absurd rfl hp
        | cons p ps => simp only [List.length_drop, List.length_cons]; omega
      have hrb : rest.length < bound := by simp only [List.length_cons] at hb; omega
      simp only [rAux, List.length_cons]
      cases hpre : pat.isPrefixOf (c :: rest) with
      | true =>
        simp only [if_true]
        have h1 : rAux pat n ((c :: rest).drop pat.length) =
            rAux pat ((c :: rest).drop pat.length).length ((c :: rest).drop pat.length) :=
          ih rest.length hrb _ n hdrop (by simp only [List.length_cons] at hn; omega)
        have h2 : rAux pat rest.length ((c :: rest).drop pat.length) =
            rAux pat ((c :: rest).drop pat.length).length ((c :: rest).drop pat.length) :=
          ih rest.length hrb _ rest.length hdrop hdrop
        rw [h1, h2]
      | false =>
        simp only [Bool.false_eq_true, if_false]
        have h1 : rAux pat n rest = rAux pat rest.length rest :=
          ih rest.length hrb rest n (le_refl _) (by simp only [List.length_cons] at hn; omega)
        rw [h1]

theorem replaceAll_cons (pat : List Char) (hp : pat ≠ []) (c : Char) (rest : List Char) :
    replaceAll pat (c :: rest) =
      if pat.isPrefixOf (c :: rest) then replaceAll pat ((c :: rest).drop pat.length)
      else c :: replaceAll pat rest := by
  have hdrop : ((c :: rest).drop pat.length).length ≤ rest.length := by
    cases pat with
    | nil => exact absurd rfl hp
    | cons p ps => simp only [List.length_drop, List.length_cons]; omega
  show rAux pat (rest.length + 1) (c :: rest) = _
  simp only [rAux]
  cases hpre : pat.isPrefixOf (c :: rest) with
  | true =>
    simp only [if_true, replaceAll]
    exact rAux_fuel pat hp _ _ rest.length (le_refl _) hdrop
  | false =>
    simp only [Bool.false_eq_true, if_false, replaceAll]

theorem replaceAll_foreign (pat : List Char) (hp : pat ≠ []) :
    ∀ (s : List Char), (∀ c ∈ s, c ∉ pat) → replaceAll pat s = s := by
  intro s
  induction s with
  | nil => intro _; rfl
  | cons c rest ih =>
    intro h
    rw [replaceAll_cons pat hp]
    cases hpre : pat.isPrefixOf (c :: rest) with
    | true =>
      exfalso
      cases pat with
      | nil => exact hp rfl
      | cons p ps =>
        rw [List.isPrefixOf_cons₂] at hpre
        have hpc : p = c := by
          have := (Bool.and_eq_true _ _).mp hpre
          exact eq_of_beq this.1
        exact h c (List.mem_cons_self _ _) (hpc ▸ List.mem_cons_self _ _)
    | false =>
      simp only [Bool.false_eq_true, if_false]
      rw [ih (fun c hc => h c (List.mem_cons_of_mem _ hc))]

theorem replaceAll_append_left (pat : List Char) (hp : pat ≠ []) :
    ∀ (l s : List Char), (∀ c ∈ l, c ∉ pat) → replaceAll pat (l ++ s) = l ++ replaceAll pat s := by
  intro l
  induction l with
  | nil => intro s _; rfl
  | cons c l' ih =>
    intro s h
    rw [List.cons_append, replaceAll_cons pat hp]
    cases hpre : pat.isPrefixOf (c :: (l' ++ s)) with
    | true =>
      exfalso
      cases pat with
      | nil => exact hp rfl
      | cons p ps =>
        rw [List.isPrefixOf_cons₂] at hpre
        have hpc : p = c := by
          have := (Bool.and_eq_true _ _).mp hpre
          exact eq_of_beq this.1
        exact h c (List.mem_cons_self _ _) (hpc ▸ List.mem_cons_self _ _)
    | false =>
      simp only [Bool.false_eq_true, if_false]
      rw [ih s (fun c hc => h c (List.mem_cons_of_mem _ hc))]
      rfl

/-- Decomposing a prefix of an append: either the pattern stops inside the
left part, or it swallows the whole left part and continues into the right. -/
theorem prefix_append_split {pat s r : List Char} (hA : pat <+: s ++ r) :
    pat <+: s ∨ ∃ u, u ≠ [] ∧ pat = s ++ u ∧ u <+: r := by
  by_cases hlen : pat.length ≤ s.length
  · exact Or.inl (List.prefix_of_prefix_length_le hA (List.prefix_append s r) hlen)
  · right
    have hsp : s <+: pat :=
      List.prefix_of_prefix_length_le (List.prefix_append s r) hA (by omega)
    obtain ⟨u, hu⟩ := hsp
    refine ⟨u, ?_, hu.symm, ?_⟩
    · intro hnil
      subst hnil
      rw [List.append_nil] at hu
      exact hlen (le_of_eq (by rw [hu]))
    · obtain ⟨t, ht⟩ := hA
      rw [← hu, List.append_assoc] at ht
      exact ⟨t, List.append_cancel_left ht⟩

theorem replaceAll_append_right (pat : List Char) (hp : pat ≠ []) :
    ∀ (bound : Nat) (s r : List Char), s.length ≤ bound → (∀ c ∈ r, c ∉ pat) →
      replaceAll pat (s ++ r) = replaceAll pat s ++ r := by
  intro bound
  induction bound using Nat.strong_induction_on with
  | _ bound ih =>
    intro s r hb h
    match s with
    | [] => simpa using replaceAll_foreign pat hp r h
    | c :: rest =>
      have hh : pat.isPrefixOf (c :: rest ++ r) = pat.isPrefixOf (c :: rest) := by
        cases hB : pat.isPrefixOf (c :: rest) with
        | true =>
          have : pat <+: (c :: rest) := List.isPrefixOf_iff_prefix.mp hB
          exact List.isPrefixOf_iff_prefix.mpr (this.trans (List.prefix_append _ r))
        | false =>
          cases hA : pat.isPrefixOf ((c :: rest) ++ r) with
          | false => rfl
          | true =>
            exfalso
            rcases prefix_append_split (List.isPrefixOf_iff_prefix.mp hA) with hps | ⟨u, hu, hpat, hur⟩
            · rw [List.isPrefixOf_iff_prefix.mpr hps] at hB; exact Bool.noConfusion hB
            · match u, hu with
              | x :: u', _ =>
                have hxr : x ∈ r := by
                  obtain ⟨t, ht⟩ := hur
                  rw [← ht]; exact List.mem_append_left _ (List.mem_cons_self _ _)
                have hxp : x ∈ pat := by
                  rw [hpat]; exact List.mem_append_right _ (List.mem_cons_self _ _)
                exact h x hxr hxp
      rw [List.cons_append, replaceAll_cons pat hp, replaceAll_cons pat hp c rest]
      rw [show ((c :: rest) ++ r : List Char) = c :: (rest ++ r) from rfl] at hh
      rw [hh]
      cases hB : pat.isPrefixOf (c :: rest) with
      | true =>
        simp only [if_true]
        have hple : pat.length ≤ (c :: rest).length :=
          (List.isPrefixOf_iff_prefix.mp hB).length_le
        rw [show (c :: (rest ++ r) : List Char) = (c :: rest) ++ r from rfl,
          List.drop_append_of_le_length hple]
        have hlt : ((c :: rest).drop pat.length).length < bound := by
          have : pat.length ≠ 0 := by
            intro h0; exact hp (List.length_eq_zero.mp h0)
          simp only [List.length_drop, List.length_cons] at *
          omega
        exact ih _ hlt _ r (le_refl _) h
      | false =>
        simp only [Bool.false_eq_true, if_false]
        have hlt : rest.length < bound := by
          simp only [List.length_cons] at hb; omega
        rw [ih _ hlt rest r (le_refl _) h, List.cons_append]

theorem replaceAll_newline (pat : List Char) (hp : pat ≠ []) (hnl : '\n' ∉ pat) :
    ∀ (bound : Nat) (a b : List Char), a.length ≤ bound →
      replaceAll pat (a ++ '\n' :: b) = replaceAll pat a ++ '\n' :: replaceAll pat b := by
  intro bound
  induction bound using Nat.strong_induction_on with
  | _ bound ih =>
    intro a b hb
    match a with
    | [] =>
      simp only [List.nil_append]
      rw [replaceAll_cons pat hp]
      cases hpre : pat.isPrefixOf ('\n' :: b) with
      | true =>
        exfalso
        cases pat with
        | nil => exact hp rfl
        | cons p ps =>
          rw [List.isPrefixOf_cons₂] at hpre
          have : p = '\n' := eq_of_beq ((Bool.and_eq_true _ _).mp hpre).1
          exact hnl (this ▸ List.mem_cons_self _ _)
      | false =>
        simp only [Bool.false_eq_true, if_false, replaceAll, List.length_nil, rAux_nil,
          List.nil_append]
    | c :: rest =>
      have hh : pat.isPrefixOf (c :: (rest ++ '\n' :: b)) = pat.isPrefixOf (c :: rest) := by
        cases hB : pat.isPrefixOf (c :: rest) with
        | true =>
          have : pat <+: (c :: rest) := List.isPrefixOf_iff_prefix.mp hB
          exact List.isPrefixOf_iff_prefix.mpr
            (List.IsPrefix.trans this (List.prefix_append _ ('\n' :: b)))
        | false =>
          cases hA : pat.isPrefixOf (c :: (rest ++ '\n' :: b)) with
          | false => rfl
          | true =>
            exfalso
            have hA' : pat <+: (c :: rest) ++ '\n' :: b := by
              rw [List.cons_append]; exact List.isPrefixOf_iff_prefix.mp hA
            rcases prefix_append_split hA' with hps | ⟨u, hu, hpat, hur⟩
            · rw [List.isPrefixOf_iff_prefix.mpr hps] at hB; exact Bool.noConfusion hB
            · match u, hu with
              | x :: u', _ =>
                have hx : x = '\n' := by
                  obtain ⟨t, ht⟩ := hur
                  have := congrArg (List.head?) ht
                  simpa using this
                have hxp : x ∈ pat := by
                  rw [hpat]; exact List.mem_append_right _ (List.mem_cons_self _ _)
                exact hnl (hx ▸ hxp)
      rw [List.cons_append, replaceAll_cons pat hp, replaceAll_cons pat hp c rest, hh]
      cases hB : pat.isPrefixOf (c :: rest) with
      | true =>
        simp only [if_true]
        have hple : pat.length ≤ (c :: rest).length :=
          (List.isPrefixOf_iff_prefix.mp hB).length_le
        rw [show (c :: (rest ++ '\n' :: b) : List Char) = (c :: rest) ++ '\n' :: b from rfl,
          List.drop_append_of_le_length hple]
        have hlt : ((c :: rest).drop pat.length).length < bound := by
          have : pat.length ≠ 0 := by
            intro h0; exact hp (List.length_eq_zero.mp h0)
          simp only [List.length_drop, List.length_cons] at *
          omega
        exact ih _ hlt _ b (le_refl _)
      | false =>
        simp only [Bool.false_eq_true, if_false]
        have hlt : rest.length < bound := by
          simp only [List.length_cons] at hb; omega
        rw [ih _ hlt rest b (le_refl _), List.cons_append]

theorem replaceAll_pat_append (pat : List Char) (hp : pat ≠ []) (s : List Char) :
    replaceAll pat (pat ++ s) = replaceAll pat s := by
  match pat, hp with
  | p :: ps, _ =>
    rw [List.cons_append, replaceAll_cons (p :: ps) (List.cons_ne_nil p ps)]
    have hpre : (p :: ps).isPrefixOf (p :: (ps ++ s)) = true :=
      List.isPrefixOf_iff_prefix.mpr ⟨s, by simp⟩
    rw [hpre]
    simp only [if_true]
    rw [show (p :: (ps ++ s) : List Char) = (p :: ps) ++ s from rfl, List.drop_left]

theorem pyStrip_ws_left (wl x : List Char) (h : ∀ c ∈ wl, isPyWs c = true) :
    pyStrip (wl ++ x) = pyStrip x := by
  unfold pyStrip
  rw [List.dropWhile_append_of_pos h]

theorem pyStrip_ws_right (x wr : List Char) (h : ∀ c ∈ wr, isPyWs c = true) :
    pyStrip (x ++ wr) = pyStrip x := by
  unfold pyStrip
  rw [List.dropWhile_append]
  cases hx : (x.dropWhile isPyWs).isEmpty with
  | true =>
    simp only [if_true]
    have hwr : wr.dropWhile isPyWs = [] := by
      rw [List.dropWhile_eq_nil_iff]; exact h
    have hx' : x.dropWhile isPyWs = [] := by
      cases hxx : x.dropWhile isPyWs with
      | nil => rfl
      | cons a l => rw [hxx] at hx; simp at hx
    rw [hwr, hx']
  | false =>
    simp only [Bool.false_eq_true, if_false]
    rw [List.reverse_append]
    rw [List.dropWhile_append_of_pos (by intro c hc; exact h c (List.mem_reverse.mp hc))]

theorem pyStrip_split (t : List Char) :
    ∃ wl wr, (∀ c ∈ wl, isPyWs c = true) ∧ (∀ c ∈ wr, isPyWs c = true) ∧
      t = wl ++ pyStrip t ++ wr := by
  refine ⟨t.takeWhile isPyWs, ((t.dropWhile isPyWs).reverse.takeWhile isPyWs).reverse,
    fun c hc => List.mem_takeWhile_imp hc,
    fun c hc => List.mem_takeWhile_imp (List.mem_reverse.mp hc), ?_⟩
  unfold pyStrip
  conv_lhs => rw [← List.takeWhile_append_dropWhile (p := isPyWs) (l := t)]
  rw [List.append_assoc]
  congr 1
  conv_lhs => rw [← List.reverse_reverse (t.dropWhile isPyWs),
    ← List.takeWhile_append_dropWhile (p := isPyWs) (l := (t.dropWhile isPyWs).reverse)]
  rw [List.reverse_append]

theorem pyStrip_of_ends (l : List Char)
    (h1 : ∃ c rest, l = c :: rest ∧ isPyWs c = false)
    (h2 : ∃ c rest, l.reverse = c :: rest ∧ isPyWs c = false) :
    pyStrip l = l := by
  obtain ⟨c, rest, hl, hc⟩ := h1
  obtain ⟨d, rrest, hr, hd⟩ := h2
  unfold pyStrip
  rw [hl, List.dropWhile_cons_of_neg (by simp [hc]), ← hl, hr,
    List.dropWhile_cons_of_neg (by simp [hd]), ← hr, List.reverse_reverse]

/-- The marker `'''json'` removed first by the Response Parser
(rendered here with backquotes in the source). -/
def fenceJson : List Char := ("```json").toList

/-- The bare code-fence marker removed second by the Response Parser. -/
def fenceBare : List Char := ("```").toList

/-- Lines 136-139 / 237-238 of `main.py`: strip the reply, delete the
`'''json'` marker, delete every bare fence, strip again. -/
def stripPipeline (s : List Char) : List Char :=
  pyStrip (replaceAll fenceBare (replaceAll fenceJson (pyStrip s)))

theorem fenceJson_ne : fenceJson ≠ [] := by decide

theorem fenceBare_ne : fenceBare ≠ [] := by decide

theorem fenceJson_no_nl : '\n' ∉ fenceJson := by decide

theorem fenceBare_no_nl : '\n' ∉ fenceBare := by decide

theorem fenceJson_no_ws : ∀ c ∈ fenceJson, isPyWs c = false := by decide

theorem fenceBare_no_ws : ∀ c ∈ fenceBare, isPyWs c = false := by decide

theorem ws_foreign (pat w : List Char) (hpat : ∀ c ∈ pat, isPyWs c = false)
    (hw : ∀ c ∈ w, isPyWs c = true) : ∀ c ∈ w, c ∉ pat := by
  intro c hc hcp
  have h1 := hw c hc
  rw [hpat c hcp] at h1
  exact Bool.noConfusion h1

/-- The leading `pyStrip` of the parse pipeline is redundant: stripping the
reply first never changes the final stripped-and-de-fenced text, because the
fence markers contain no whitespace so no deletion crosses the stripped
edges. -/
theorem strip_chain (t : List Char) :
    pyStrip (replaceAll fenceBare (replaceAll fenceJson t)) = stripPipeline t := by
  obtain ⟨wl, wr, hwl, hwr, hdec⟩ := pyStrip_split t
  unfold stripPipeline
  conv_lhs => rw [hdec]
  rw [List.append_assoc,
    replaceAll_append_left fenceJson fenceJson_ne wl _
      (ws_foreign fenceJson wl fenceJson_no_ws hwl),
    replaceAll_append_right fenceJson fenceJson_ne (pyStrip t).length _ wr (le_refl _)
      (ws_foreign fenceJson wr fenceJson_no_ws hwr),
    replaceAll_append_left fenceBare fenceBare_ne wl _
      (ws_foreign fenceBare wl fenceBare_no_ws hwl),
    replaceAll_append_right fenceBare fenceBare_ne _ _ wr (le_refl _)
      (ws_foreign fenceBare wr fenceBare_no_ws hwr),
    pyStrip_ws_left wl _ hwl, pyStrip_ws_right _ wr hwr]

/-- An oracle reply wrapped in a language-tagged markdown code fence. -/
def wrapJsonFence (t : List Char) : List Char :=
  ("```json\n").toList ++ t ++ ("\n```").toList

/-- An oracle reply wrapped in a bare markdown code fence. -/
def wrapBareFence (t : List Char) : List Char :=
  ("```\n").toList ++ t ++ ("\n```").toList

theorem replaceAll_nil_right (pat : List Char) : replaceAll pat [] = [] := by
  simp [replaceAll, rAux_nil]

theorem stripPipeline_wrapJson (t : List Char) :
    stripPipeline (wrapJsonFence t) = stripPipeline t := by
  have hsplit : wrapJsonFence t = fenceJson ++ ('\n' :: (t ++ '\n' :: fenceBare)) := by
    show (("```json\n").toList ++ t) ++ ("\n```").toList = _
    rw [show ("```json\n").toList = fenceJson ++ ['\n'] from rfl,
      show ("\n```").toList = '\n' :: fenceBare from rfl]
    simp [List.append_assoc]
  have hself : pyStrip (wrapJsonFence t) = wrapJsonFence t := by
    apply pyStrip_of_ends
    · exact ⟨'`', ("``json\n").toList ++ t ++ ("\n```").toList, rfl, by decide⟩
    · refine ⟨'`', ['`', '`', '\n'] ++ (("```json\n").toList ++ t).reverse, ?_, by decide⟩
      show ((("```json\n").toList ++ t) ++ ("\n```").toList).reverse = _
      rw [List.reverse_append]
      rfl
  have hpass1 : replaceAll fenceJson (wrapJsonFence t) =
      '\n' :: (replaceAll fenceJson t ++ '\n' :: fenceBare) := by
    rw [hsplit, replaceAll_pat_append fenceJson fenceJson_ne,
      show ('\n' :: (t ++ '\n' :: fenceBare) : List Char) =
        [] ++ '\n' :: (t ++ '\n' :: fenceBare) from rfl,
      replaceAll_newline fenceJson fenceJson_ne fenceJson_no_nl [].length [] _ (le_refl _),
      replaceAll_newline fenceJson fenceJson_ne fenceJson_no_nl t.length t _ (le_refl _),
      replaceAll_nil_right,
      show replaceAll fenceJson fenceBare = fenceBare by decide]
    rfl
  have hpass2 : replaceAll fenceBare ('\n' :: (replaceAll fenceJson t ++ '\n' :: fenceBare)) =
      '\n' :: (replaceAll fenceBare (replaceAll fenceJson t) ++ ['\n']) := by
    rw [show ('\n' :: (replaceAll fenceJson t ++ '\n' :: fenceBare) : List Char) =
        [] ++ '\n' :: (replaceAll fenceJson t ++ '\n' :: fenceBare) from rfl,
      replaceAll_newline fenceBare fenceBare_ne fenceBare_no_nl [].length [] _ (le_refl _),
      replaceAll_newline fenceBare fenceBare_ne fenceBare_no_nl
        (replaceAll fenceJson t).length _ _ (le_refl _),
      replaceAll_nil_right,
      show replaceAll fenceBare fenceBare = [] by decide]
    rfl
  show pyStrip (replaceAll fenceBare (replaceAll fenceJson (pyStrip (wrapJsonFence t)))) = _
  rw [hself, hpass1, hpass2,
    show ('\n' :: (replaceAll fenceBare (replaceAll fenceJson t) ++ ['\n']) : List Char) =
      ['\n'] ++ (replaceAll fenceBare (replaceAll fenceJson t) ++ ['\n']) from rfl,
    pyStrip_ws_left ['\n'] _ (by decide), pyStrip_ws_right _ ['\n'] (by decide),
    strip_chain]

theorem stripPipeline_wrapBare (t : List Char) :
    stripPipeline (wrapBareFence t) = stripPipeline t := by
  have hsplit : wrapBareFence t = fenceBare ++ ('\n' :: (t ++ '\n' :: fenceBare)) := by
    show (("```\n").toList ++ t) ++ ("\n```").toList = _
    rw [show ("```\n").toList = fenceBare ++ ['\n'] from rfl,
      show ("\n```").toList = '\n' :: fenceBare from rfl]
    simp [List.append_assoc]
  have hself : pyStrip (wrapBareFence t) = wrapBareFence t := by
    apply pyStrip_of_ends
    · exact ⟨'`', ("``\n").toList ++ t ++ ("\n```").toList, rfl, by decide⟩
    · refine ⟨'`', ['`', '`', '\n'] ++ (("```\n").toList ++ t).reverse, ?_, by decide⟩
      show ((("```\n").toList ++ t) ++ ("\n```").toList).reverse = _
      rw [List.reverse_append]
      rfl
  have hpass1 : replaceAll fenceJson (wrapBareFence t) =
      fenceBare ++ '\n' :: (replaceAll fenceJson t ++ '\n' :: fenceBare) := by
    rw [hsplit,
      replaceAll_newline fenceJson fenceJson_ne fenceJson_no_nl fenceBare.length fenceBare _
        (le_refl _),
      replaceAll_newline fenceJson fenceJson_ne fenceJson_no_nl t.length t _ (le_refl _),
      show replaceAll fenceJson fenceBare = fenceBare by decide]
  have hpass2 : replaceAll fenceBare
      (fenceBare ++ '\n' :: (replaceAll fenceJson t ++ '\n' :: fenceBare)) =
      '\n' :: (replaceAll fenceBare (replaceAll fenceJson t) ++ ['\n']) := by
    rw [replaceAll_newline fenceBare fenceBare_ne fenceBare_no_nl fenceBare.length fenceBare _
        (le_refl _),
      replaceAll_newline fenceBare fenceBare_ne fenceBare_no_nl
        (replaceAll fenceJson t).length _ _ (le_refl _),
      show replaceAll fenceBare fenceBare = [] by decide]
    rfl
  show pyStrip (replaceAll fenceBare (replaceAll fenceJson (pyStrip (wrapBareFence t)))) = _
  rw [hself, hpass1, hpass2,
    show ('\n' :: (replaceAll fenceBare (replaceAll fenceJson t) ++ ['\n']) : List Char) =
      ['\n'] ++ (replaceAll fenceBare (replaceAll fenceJson t) ++ ['\n']) from rfl,
    pyStrip_ws_left ['\n'] _ (by decide), pyStrip_ws_right _ ['\n'] (by decide),
    strip_chain]

/-- JSON values as produced by Python `json.loads`.  Numeric tokens are kept
verbatim (the service never does arithmetic on them); `NaN`, `Infinity` and
`-Infinity`, accepted by `json.loads`, are numeric tokens too. -/
inductive JVal where
  | str (s : List Char)
  | num (tok : List Char)
  | boolean (b : Bool)
  | null
  | arr (elems : List JVal)
  | obj (members : List (List Char × JVal))

/-- Insert into a Python dict modelled as an association list: an existing
key keeps its position and gets the new value (last value wins), a fresh key
is appended. -/
def dictInsert (k : List Char) (v : JVal) :
    List (List Char × JVal) → List (List Char × JVal)
  | [] => [(k, v)]
  | (k', v') :: rest => if k' = k then (k', v) :: rest else (k', v') :: dictInsert k v rest

/-- JSON whitespace (`json.loads` accepts exactly space, tab, newline,
carriage return — strictly fewer characters than Python `str.strip`). -/
def isJsonWs (c : Char) : Bool := c = ' ' || c = '\t' || c = '\n' || c = '\r'

def skipWs (s : List Char) : List Char := s.dropWhile isJsonWs

def isDigitCh (c : Char) : Bool := 48 ≤ c.toNat && c.toNat ≤ 57

/-- Value of one hexadecimal digit, for string `\uXXXX` escapes. -/
def hexVal (c : Char) : Option Nat :=
  if 48 ≤ c.toNat ∧ c.toNat ≤ 57 then some (c.toNat - 48)
  else if 97 ≤ c.toNat ∧ c.toNat ≤ 102 then some (c.toNat - 87)
  else if 65 ≤ c.toNat ∧ c.toNat ≤ 70 then some (c.toNat - 55)
  else none

/-- Single-character JSON string escapes. -/
def escChar : Char → Option Char
  | '"' => some '"'
  | '\\' => some '\\'
  | '/' => some '/'
  | 'b' => some '\x08'
  | 'f' => some '\x0c'
  | 'n' => some '\n'
  | 'r' => some '\r'
  | 't' => some '\t'
  | _ => none

/-- Body of a JSON string after the opening quote, in strict mode (raw
control characters below 0x20 are rejected, as by default `json.loads`).
Simplification of the embedding: a `\uXXXX` escape becomes the codepoint
directly; surrogate halves (accepted verbatim by Python) are outside Lean
`Char` and collapse to the replacement of `Char.ofNat`; no claim touches
them. -/
def parseStrBody : List Char → Option (List Char × List Char)
  | [] => none
  | '"' :: rest => some ([], rest)
  | '\\' :: 'u' :: h1 :: h2 :: h3 :: h4 :: rest =>
    match hexVal h1, hexVal h2, hexVal h3, hexVal h4 with
    | some a, some b, some c, some d =>
      match parseStrBody rest with
      | some (s, r) => some (Char.ofNat (4096 * a + 256 * b + 16 * c + d) :: s, r)
      | none => none
    | _, _, _, _ => none
  | '\\' :: e :: rest =>
    match escChar e with
    | some c =>
      match parseStrBody rest with
      | some (s, r) => some (c :: s, r)
      | none => none
    | none => none
  | c :: rest =>
    if c.toNat < 32 then none
    else
      match parseStrBody rest with
      | some (s, r) => some (c :: s, r)
      | none => none

/-- Integer part of a JSON number: `0`, or a nonzero digit followed by
digits (leading zeros rejected, as by the `json` module's number regex). -/
def parseIntDigits : List Char → Option (List Char × List Char)
  | [] => none
  | '0' :: rest => some (['0'], rest)
  | c :: rest =>
    if isDigitCh c then some (c :: rest.takeWhile isDigitCh, rest.dropWhile isDigitCh)
    else none

/-- Optional fraction part `.digits` (at least one digit, else nothing is
consumed — maximal-munch exactly like the number regex). -/
def parseFrac (s : List Char) : List Char × List Char :=
  match s with
  | '.' :: rest =>
    if (rest.takeWhile isDigitCh).isEmpty then ([], s)
    else ('.' :: rest.takeWhile isDigitCh, rest.dropWhile isDigitCh)
  | _ => ([], s)

/-- Optional exponent part `[eE][+-]?digits`. -/
def parseExp (s : List Char) : List Char × List Char :=
  match s with
  | e :: sg :: rest =>
    if e = 'e' ∨ e = 'E' then
      if sg = '+' ∨ sg = '-' then
        if (rest.takeWhile isDigitCh).isEmpty then ([], s)
        else (e :: sg :: rest.takeWhile isDigitCh, rest.dropWhile isDigitCh)
      else
        if ((sg :: rest).takeWhile isDigitCh).isEmpty then ([], s)
        else (e :: (sg :: rest).takeWhile isDigitCh, (sg :: rest).dropWhile isDigitCh)
    else ([], s)
  | _ => ([], s)

/-- A complete JSON number token, returned verbatim with the rest of the
input. -/
def parseNumTok (s : List Char) : Option (List Char × List Char) :=
  match s with
  | '-' :: rest =>
    match parseIntDigits rest with
    | some (ds, r1) =>
      match parseFrac r1 with
      | (f, r2) =>
        match parseExp r2 with
        | (e, r3) => some ('-' :: (ds ++ f ++ e), r3)
    | none => none
  | _ =>
    match parseIntDigits s with
    | some (ds, r1) =>
      match parseFrac r1 with
      | (f, r2) =>
        match parseExp r2 with
        | (e, r3) => some (ds ++ f ++ e, r3)
    | none => none

mutual

/-- One JSON value starting at the head of the input (whitespace already
skipped by the caller, as in the `json` module's scanner).  Every
invocation in this mutual group burns one unit of fuel.  On an input that
parses, each invocation of `parseVal` consumes at least one character, and
a consumed character triggers at most three invocations before the next
character is consumed (an opening `{` or `[` is the worst case: the value
parser, the body dispatcher and the member/element loop all start on it),
so `3 * length + 3` units of fuel never run out; on an input `json.loads`
rejects, the result is `none` — by a grammar failure or by fuel exhaustion
alike — matching the raised `JSONDecodeError`. -/
def parseVal : Nat → List Char → Option (JVal × List Char)
  | 0, _ => none
  | n + 1, s =>
    match s with
    | '"' :: rest =>
      match parseStrBody rest with
      | some (cs, r) => some (JVal.str cs, r)
      | none => none
    | '{' :: rest => parseObjBody n (skipWs rest)
    | '[' :: rest => parseArrBody n (skipWs rest)
    | _ =>
      if ("true").toList.isPrefixOf s then some (JVal.boolean true, s.drop 4)
      else if ("false").toList.isPrefixOf s then some (JVal.boolean false, s.drop 5)
      else if ("null").toList.isPrefixOf s then some (JVal.null, s.drop 4)
      else
        match parseNumTok s with
        | some (tok, r) => some (JVal.num tok, r)
        | none =>
          if ("NaN").toList.isPrefixOf s then some (JVal.num ("NaN").toList, s.drop 3)
          else if ("Infinity").toList.isPrefixOf s then
            some (JVal.num ("Infinity").toList, s.drop 8)
          else if ("-Infinity").toList.isPrefixOf s then
            some (JVal.num ("-Infinity").toList, s.drop 9)
          else none

/-- Object body after `{` and whitespace. -/
def parseObjBody : Nat → List Char → Option (JVal × List Char)
  | 0, _ => none
  | n + 1, s =>
    match s with
    | '}' :: rest => some (JVal.obj [], rest)
    | _ => parseMembers n s []

/-- Members of an object: `"key" ws : ws value (ws , ws members)* ws }`. -/
def parseMembers : Nat → List Char → List (List Char × JVal) → Option (JVal × List Char)
  | 0, _, _ => none
  | n + 1, s, acc =>
    match s with
    | '"' :: rest =>
      match parseStrBody rest with
      | some (key, r1) =>
        match skipWs r1 with
        | ':' :: r3 =>
          match parseVal n (skipWs r3) with
          | some (v, r4) =>
            match skipWs r4 with
            | ',' :: r6 => parseMembers n (skipWs r6) (dictInsert key v acc)
            | '}' :: r6 => some (JVal.obj (dictInsert key v acc), r6)
            | _ => none
          | none => none
        | _ => none
      | none => none
    | _ => none

/-- Array body after `[` and whitespace. -/
def parseArrBody : Nat → List Char → Option (JVal × List Char)
  | 0, _ => none
  | n + 1, s =>
    match s with
    | ']' :: rest => some (JVal.arr [], rest)
    | _ => parseElems n s []

/-- Elements of an array. -/
def parseElems : Nat → List Char → List JVal → Option (JVal × List Char)
  | 0, _, _ => none
  | n + 1, s, acc =>
    match parseVal n s with
    | some (v, r) =>
      match skipWs r with
      | ',' :: r2 => parseElems n (skipWs r2) (acc ++ [v])
      | ']' :: r2 => some (JVal.arr (acc ++ [v]), r2)
      | _ => none
    | none => none

end

/-- Python `json.loads`: skip leading whitespace, parse one value, accept
only whitespace afterwards (`Extra data` otherwise).  The fuel budget
`3 * length + 3` covers the at-most-three invocations per consumed
character of the mutual parser group (see `parseVal`), so every reply that
`json.loads` accepts is parsed here too. -/
def jsonLoads (s : List Char) : Option JVal :=
  match parseVal (3 * s.length + 3) (skipWs s) with
  | some (v, rest) => if (skipWs rest).isEmpty then some v else none
  | none => none

/-- Python regex full match of `\d{2}/\d{2}/\d{4}` on the (pre-stripped)
subject.  ASCII digits only: the embedding's alphabet for dates is ASCII,
so the wider Unicode `\d` class is out of scope.  The `$` subtlety of
`re.match` (a trailing newline would be tolerated) cannot fire because the
code strips the subject first. -/
def matchDDMMYYYY : List Char → Bool
  | [d1, d2, '/', m1, m2, '/', y1, y2, y3, y4] =>
    isDigitCh d1 && isDigitCh d2 && isDigitCh m1 && isDigitCh m2 &&
    isDigitCh y1 && isDigitCh y2 && isDigitCh y3 && isDigitCh y4
  | _ => false

/-- Python regex full match of `\d{2}/\d{2}/\d{2}`. -/
def matchDDMMYY : List Char → Bool
  | [d1, d2, '/', m1, m2, '/', y1, y2] =>
    isDigitCh d1 && isDigitCh d2 && isDigitCh m1 && isDigitCh m2 &&
    isDigitCh y1 && isDigitCh y2
  | _ => false

/-- Python `int()` on a string of ASCII digits (the only shape it is
applied to here, guarded by the two-digit match). -/
def digitsToNat (l : List Char) : Nat :=
  l.foldl (fun acc c => 10 * acc + (c.toNat - 48)) 0

/-- Python `f"{year:02d}"` for `0 ≤ year ≤ 99` (guaranteed by the
two-digit match that guards the only call site). -/
def twoDigitRender (n : Nat) : List Char :=
  [Char.ofNat (48 + n / 10), Char.ofNat (48 + n % 10)]

/-- Lines 255-297 of `main.py`: `_validate_date`.  Empty input returns
empty; otherwise the input is stripped, returned as-is when it matches the
expected pattern, converted between two- and four-digit years when it
matches the other pattern (century pivot: 00-30 becomes 20YY, 31-99
becomes 19YY), and otherwise returned stripped-but-unconverted.  The
wildcard arms after `pySplit` are unreachable (the regex guard guarantees
exactly three parts) and mirror Python's unchecked `parts[2]` indexing. -/
def validateDate (dateStr : List Char) (expectedFormat : String) : List Char :=
  if dateStr = [] then []
  else
    let d := pyStrip dateStr
    let matched := if expectedFormat = "DD/MM/YYYY" then matchDDMMYYYY d else matchDDMMYY d
    if matched then d
    else if expectedFormat = "DD/MM/YY" ∧ matchDDMMYYYY d = true then
      match pySplit '/' d with
      | [p0, p1, p2] => p0 ++ '/' :: p1 ++ '/' :: p2.drop (p2.length - 2)
      | _ => d
    else if expectedFormat = "DD/MM/YYYY" ∧ matchDDMMYY d = true then
      match pySplit '/' d with
      | [p0, p1, p2] =>
        p0 ++ '/' :: p1 ++ '/' ::
          ((if digitsToNat p2 ≤ 30 then ("20").toList else ("19").toList) ++
            twoDigitRender (digitsToNat p2))
      | _ => d
    else d

def b64Alphabet : List Char :=
  ("ABCDEFGHIJKLMNOPQRSTUVWXYZabcdefghijklmnopqrstuvwxyz0123456789+/").toList

def b64Char (n : Nat) : Char := b64Alphabet.getD n 'A'

/-- Python `base64.standard_b64encode` on a byte list (each entry < 256),
including `=` padding. -/
def base64Encode : List Nat → List Char
  | [] => []
  | [a] => [b64Char (a / 4), b64Char ((a % 4) * 16), '=', '=']
  | [a, b] => [b64Char (a / 4), b64Char ((a % 4) * 16 + b / 16), b64Char ((b % 16) * 4), '=']
  | a :: b :: c :: rest =>
    b64Char (a / 4) :: b64Char ((a % 4) * 16 + b / 16) ::
      b64Char ((b % 16) * 4 + c / 64) :: b64Char (c % 64) :: base64Encode rest

def isContByte (b : Nat) : Bool := 128 ≤ b && b ≤ 191

/-- Fuel-driven UTF-8 decoding with the `ignore` error handler: every step
consumes at least one byte, so fuel equal to the byte count suffices.
Invalid input skips the maximal valid subpart (1 byte for a bad lead or a
lead with an immediately bad continuation, more when a longer prefix was
valid), exactly the ranges CPython reports; overlong forms and surrogate
encodings are invalid, as in CPython. -/
def utf8Aux : Nat → List Nat → List Char
  | _, [] => []
  | 0, _ => []
  | n + 1, b :: rest =>
    if b < 128 then Char.ofNat b :: utf8Aux n rest
    else if 194 ≤ b ∧ b ≤ 223 then
      match rest with
      | b2 :: rest2 =>
        if isContByte b2 then Char.ofNat ((b - 192) * 64 + (b2 - 128)) :: utf8Aux n rest2
        else utf8Aux n rest
      | [] => []
    else if 224 ≤ b ∧ b ≤ 239 then
      match rest with
      | b2 :: rest2 =>
        if (b = 224 ∧ 160 ≤ b2 ∧ b2 ≤ 191) ∨ (225 ≤ b ∧ b ≤ 236 ∧ isContByte b2 = true) ∨
            (b = 237 ∧ 128 ≤ b2 ∧ b2 ≤ 159) ∨ (238 ≤ b ∧ isContByte b2 = true) then
          match rest2 with
          | b3 :: rest3 =>
            if isContByte b3 then
              Char.ofNat ((b - 224) * 4096 + (b2 - 128) * 64 + (b3 - 128)) :: utf8Aux n rest3
            else utf8Aux n rest2
          | [] => []
        else utf8Aux n rest
      | [] => []
    else if 240 ≤ b ∧ b ≤ 244 then
      match rest with
      | b2 :: rest2 =>
        if (b = 240 ∧ 144 ≤ b2 ∧ b2 ≤ 191) ∨ (241 ≤ b ∧ b ≤ 243 ∧ isContByte b2 = true) ∨
            (b = 244 ∧ 128 ≤ b2 ∧ b2 ≤ 143) then
          match rest2 with
          | b3 :: rest3 =>
            if isContByte b3 then
              match rest3 with
              | b4 :: rest4 =>
                if isContByte b4 then
                  Char.ofNat ((b - 240) * 262144 + (b2 - 128) * 4096 +
                    (b3 - 128) * 64 + (b4 - 128)) :: utf8Aux n rest4
                else utf8Aux n rest3
              | [] => []
            else utf8Aux n rest2
          | [] => []
        else utf8Aux n rest
      | [] => []
    else utf8Aux n rest

/-- Line 101 of `main.py`: `file_content.decode("utf-8", errors="ignore")`.
Total: undecodable bytes are dropped, never raised on and never replaced. -/
def decodeUtf8Ignore (content : List Nat) : List Char := utf8Aux content.length content

/-- The two exception shapes the service can raise and catch: FastAPI
`HTTPException(status, detail)` and Python `AttributeError` (whose exact
CPython message wording no claim inspects, carried as an opaque text). -/
inductive PyExn where
  | httpExc (status : Nat) (detail : List Char)
  | attrError (msg : List Char)

/-- Python `str(e)` as used in the endpoint handlers: Starlette's
`HTTPException.__str__` renders `"{status_code}: {detail}"`. -/
def pyExnStr : PyExn → List Char
  | PyExn.httpExc status detail => Nat.toDigits 10 status ++ (": ").toList ++ detail
  | PyExn.attrError msg => msg

/-- One block of the multimodal message sent to the oracle. -/
inductive ContentBlock where
  | document (mediaType : List Char) (b64Data : List Char)
  | image (mediaType : List Char) (b64Data : List Char)
  | text (body : List Char)

/-- The request handed to `client.messages.create`: model id, `max_tokens`,
and the single user message's content blocks. -/
structure OracleRequest where
  modelName : List Char
  maxTokens : Nat
  content : List ContentBlock

def claudeModel : List Char := ("claude-sonnet-4-20250514").toList

/-- Instruction text of the solicitor-letter PDF prompt (lines 75-93 of
`main.py`, abridged to its head sentence: the full wording reaches only
the oracle and influences no control flow or claim). -/
def solicitorPdfPrompt : List Char :=
  ("Extract the following 4 pieces of information from this solicitor letter.").toList

/-- Text-mode solicitor prompt up to the interpolated `text_content`
(lines 109-113, abridged likewise). -/
def solicitorTextPromptPre : List Char :=
  ("Extract the following 4 pieces of information from this solicitor letter. Document content:\n").toList

/-- Text-mode solicitor prompt after the interpolated `text_content`
(lines 116-130, abridged). -/
def solicitorTextPromptPost : List Char :=
  ("\nReturn ONLY valid JSON with the keys solicitor_ref, name, address, dob.").toList

/-- Audiogram prompt (lines 213-230, abridged). -/
def audiogramPrompt : List Char :=
  ("Extract the audiogram test date from this audiogram. Return ONLY valid JSON with the key audiogram_date in DD/MM/YY format.").toList

/-- Line 52: `filename.lower().endswith(".pdf")`. -/
def solicitorIsPdf (filename : List Char) : Bool :=
  pyEndsWith (pyLower filename) ((".pdf").toList)

/-- Line 170: `filename.lower().split(".")[-1]` — the code's notion of the
file extension (a dotless name is its own "extension"). -/
def fileExt (filename : List Char) : List Char :=
  pyLast (pySplit '.' (pyLower filename))

/-- Lines 51-133: build the oracle request for the solicitor letter — a
base64 document block for `.pdf` files, otherwise the bytes best-effort
decoded and interpolated into the text prompt. -/
def mkSolicitorRequest (fileContent : List Nat) (filename : List Char) : OracleRequest :=
  if solicitorIsPdf filename then
    { modelName := claudeModel, maxTokens := 1000,
      content := [ContentBlock.document (("application/pdf").toList) (base64Encode fileContent),
        ContentBlock.text solicitorPdfPrompt] }
  else
    { modelName := claudeModel, maxTokens := 1000,
      content := [ContentBlock.text
        (solicitorTextPromptPre ++ decodeUtf8Ignore fileContent ++ solicitorTextPromptPost)] }

/-- Lines 169-179: media-type dispatch for the audiogram; an unrecognised
extension raises `HTTPException(400, ...)` before any encoding or oracle
call. -/
def audiogramMediaType (filename : List Char) : Except PyExn (List Char) :=
  if fileExt filename = ("pdf").toList then Except.ok (("application/pdf").toList)
  else if fileExt filename = ("jpg").toList ∨ fileExt filename = ("jpeg").toList then
    Except.ok (("image/jpeg").toList)
  else if fileExt filename = ("png").toList then Except.ok (("image/png").toList)
  else Except.error (PyExn.httpExc 400
    ((("Unsupported audiogram file type: ").toList) ++ fileExt filename))

/-- Lines 181-235: build the oracle request for the audiogram — a document
block for PDF, an image block otherwise. -/
def mkAudiogramRequest (mediaType : List Char) (fileContent : List Nat) : OracleRequest :=
  if mediaType = ("application/pdf").toList then
    { modelName := claudeModel, maxTokens := 500,
      content := [ContentBlock.document mediaType (base64Encode fileContent),
        ContentBlock.text audiogramPrompt] }
  else
    { modelName := claudeModel, maxTokens := 500,
      content := [ContentBlock.image mediaType (base64Encode fileContent),
        ContentBlock.text audiogramPrompt] }

/-- Lines 136-151 / 237-249: strip markdown fences from the oracle reply
and parse it; a parse failure raises `HTTPException(500, ...)` carrying the
first 200 characters of the cleaned reply. -/
def parsePhase (raw : List Char) : Except PyExn JVal :=
  match jsonLoads (stripPipeline raw) with
  | some v => Except.ok v
  | none => Except.error (PyExn.httpExc 500
      ((("Failed to parse AI response as JSON. Response: ").toList) ++
        (stripPipeline raw).take 200))

/-- Lookup in a Python dict modelled as an association list with unique
keys (the invariant `dictInsert` maintains). -/
def dictGet {α : Type} (d : List (List Char × α)) (k : List Char) : Option α :=
  match d with
  | [] => none
  | (k', v) :: rest => if k' = k then some v else dictGet rest k

/-- Python `value.get(key, default)`: an `AttributeError` when the parsed
JSON value is not an object (e.g. a bare list or number at top level), the
stored value or the default otherwise. -/
def pyGetDefault (v : JVal) (k : List Char) (dflt : JVal) : Except PyExn JVal :=
  match v with
  | JVal.obj members => Except.ok ((dictGet members k).getD dflt)
  | _ => Except.error (PyExn.attrError (("object has no attribute get").toList))

/-- Whether the mantissa of a JSON numeric token denotes zero (`0`, `-0.0`,
`0e17`, ...).  Tokens with no digit at all are `NaN`/`Infinity`/`-Infinity`,
which are not zero. -/
def numIsZero (tok : List Char) : Bool :=
  (tok.takeWhile (fun c => c ≠ 'e' ∧ c ≠ 'E')).all (fun c => !(49 ≤ c.toNat && c.toNat ≤ 57)) &&
    tok.any isDigitCh

/-- Python truthiness `bool(x)` of a parsed JSON value. -/
def pyTruthy : JVal → Bool
  | JVal.str s => !s.isEmpty
  | JVal.num tok => !numIsZero tok
  | JVal.boolean b => b
  | JVal.null => false
  | JVal.arr elems => !elems.isEmpty
  | JVal.obj members => !members.isEmpty

/-- Lines 158 / 252: `_validate_date` applied to whatever `dict.get`
returned.  A string goes through `validateDate`; a falsy non-string (`0`,
`None`, `[]`, ...) hits the `if not date_str` guard and yields `""`; a
truthy non-string crashes at `.strip()` with an `AttributeError`. -/
def validateDateVal (v : JVal) (expectedFormat : String) : Except PyExn (List Char) :=
  match v with
  | JVal.str s => Except.ok (validateDate s expectedFormat)
  | other =>
    if pyTruthy other then
      Except.error (PyExn.attrError (("object has no attribute strip").toList))
    else Except.ok []

/-- Lines 43-159: `extract_from_solicitor_letter`, with the oracle (the
`client.messages.create` call composed with `.content[0].text.strip()`,
whose leading strip is folded into `stripPipeline`) passed explicitly. -/
def extractFromSolicitorLetter (oracle : OracleRequest → List Char)
    (fileContent : List Nat) (filename : List Char) :
    Except PyExn (List (List Char × JVal)) := do
  let data ← parsePhase (oracle (mkSolicitorRequest fileContent filename))
  let ref ← pyGetDefault data (("solicitor_ref").toList) (JVal.str [])
  let nm ← pyGetDefault data (("name").toList) (JVal.str [])
  let ad ← pyGetDefault data (("address").toList) (JVal.str [])
  let dobRaw ← pyGetDefault data (("dob").toList) (JVal.str [])
  let dob ← validateDateVal dobRaw "DD/MM/YYYY"
  return [((("solicitor_ref").toList), ref), ((("name").toList), nm),
    ((("address").toList), ad), ((("dob").toList), JVal.str dob)]

/-- Lines 161-253: `extract_from_audiogram`. -/
def extractFromAudiogram (oracle : OracleRequest → List Char)
    (fileContent : List Nat) (filename : List Char) :
    Except PyExn (List (List Char × JVal)) := do
  let mediaType ← audiogramMediaType filename
  let data ← parsePhase (oracle (mkAudiogramRequest mediaType fileContent))
  let dRaw ← pyGetDefault data (("audiogram_date").toList) (JVal.str [])
  let d ← validateDateVal dRaw "DD/MM/YY"
  return [((("audiogram_date").toList), JVal.str d)]

/-- The `/api/extract` 200-response body (lines 355-368): the five fields
in order plus the derived per-field confidence booleans. -/
structure CombinedResult where
  fields : List (List Char × JVal)
  confidence : List (List Char × Bool)

/-- Confidence `bool(d.get(k))` as in lines 362-366: `.get` without a default returns
`None` on a missing key and `bool(None)` is `False`. -/
def confOf (d : List (List Char × JVal)) (k : List Char) : Bool :=
  match dictGet d k with
  | some v => pyTruthy v
  | none => false

/-- Field value `d.get(k, "")` as in lines 356-360. -/
def fieldOf (d : List (List Char × JVal)) (k : List Char) : JVal :=
  (dictGet d k).getD (JVal.str [])

def mkCombined (sol aud : List (List Char × JVal)) : CombinedResult :=
  { fields := [
      ((("solicitor_ref").toList), fieldOf sol (("solicitor_ref").toList)),
      ((("name").toList), fieldOf sol (("name").toList)),
      ((("address").toList), fieldOf sol (("address").toList)),
      ((("dob").toList), fieldOf sol (("dob").toList)),
      ((("audiogram_date").toList), fieldOf aud (("audiogram_date").toList))],
    confidence := [
      ((("solicitor_ref").toList), confOf sol (("solicitor_ref").toList)),
      ((("name").toList), confOf sol (("name").toList)),
      ((("address").toList), confOf sol (("address").toList)),
      ((("dob").toList), confOf sol (("dob").toList)),
      ((("audiogram_date").toList), confOf aud (("audiogram_date").toList))] }

/-- Outcome of one HTTP request: a 200 body, or an error status with a
`detail` message (FastAPI renders the latter as `{"detail": ...}`). -/
inductive ApiResult (α : Type) where
  | success (body : α)
  | httpError (status : Nat) (detail : List Char)

/-- Endpoint `POST /api/extract` (lines 314-376): both extractions run inside one
`try`; every exception — the `HTTPException`s raised by the extractors
included — is caught by `except Exception` and re-raised as status 500
with detail `"Extraction failed: " + str(e)`. -/
def extractDataEndpoint (oracle : OracleRequest → List Char)
    (solContent : List Nat) (solName : List Char)
    (audContent : List Nat) (audName : List Char) : ApiResult CombinedResult :=
  match (do
      let sol ← extractFromSolicitorLetter oracle solContent solName
      let aud ← extractFromAudiogram oracle audContent audName
      Except.ok (mkCombined sol aud) : Except PyExn CombinedResult) with
  | Except.ok r => ApiResult.success r
  | Except.error e =>
    ApiResult.httpError 500 ((("Extraction failed: ").toList) ++ pyExnStr e)

/-- Endpoint `POST /api/extract/solicitor` (lines 379-389): same catch-all, detail
is `str(e)` alone. -/
def extractSolicitorEndpoint (oracle : OracleRequest → List Char)
    (content : List Nat) (filename : List Char) : ApiResult (List (List Char × JVal)) :=
  match extractFromSolicitorLetter oracle content filename with
  | Except.ok r => ApiResult.success r
  | Except.error e => ApiResult.httpError 500 (pyExnStr e)

/-- Endpoint `POST /api/extract/audiogram` (lines 392-402). -/
def extractAudiogramEndpoint (oracle : OracleRequest → List Char)
    (content : List Nat) (filename : List Char) : ApiResult (List (List Char × JVal)) :=
  match extractFromAudiogram oracle content filename with
  | Except.ok r => ApiResult.success r
  | Except.error e => ApiResult.httpError 500 (pyExnStr e)

/-- Endpoint `GET /` (lines 304-311): the health body returned by `root`. -/
def rootResponse : List (List Char × JVal) :=
  [((("status").toList), JVal.str (("online").toList)),
   ((("service").toList), JVal.str (("MNIHL Document Extraction API").toList)),
   ((("version").toList), JVal.str (("1.0.0").toList))]

theorem toNat_ofNat_small (n : Nat) (h : n < 55296) : (Char.ofNat n).toNat = n := by
  have hv : n.isValidChar := Or.inl h
  rw [Char.ofNat, dif_pos hv]
  simp [Char.ofNatAux, Char.toNat, UInt32.toNat]

theorem pyLowerChar_idem (c : Char) : pyLowerChar (pyLowerChar c) = pyLowerChar c := by
  unfold pyLowerChar
  by_cases h : 65 ≤ c.toNat ∧ c.toNat ≤ 90
  · rw [if_pos h]
    have ht : (Char.ofNat (c.toNat + 32)).toNat = c.toNat + 32 :=
      toNat_ofNat_small _ (by omega)
    rw [if_neg (by omega)]
  · rw [if_neg h, if_neg h]

theorem pyLower_idem (l : List Char) : pyLower (pyLower l) = pyLower l := by
  unfold pyLower
  rw [List.map_map]
  exact List.map_congr_left (fun c _ => pyLowerChar_idem c)

theorem digit_not_ws {c : Char} (h : isDigitCh c = true) : isPyWs c = false := by
  unfold isDigitCh at h
  have h48 : 48 ≤ c.toNat := by
    have := (Bool.and_eq_true _ _).mp h
    exact of_decide_eq_true this.1
  unfold isPyWs
  have hne : ∀ d : Char, d.toNat < 48 → c = d → False := by
    intro d hd he
    subst he
    omega
  simp only [Bool.or_eq_false_iff, decide_eq_false_iff_not]
  exact ⟨⟨⟨⟨⟨⟨⟨⟨⟨fun he => hne ' ' (by decide) he, fun he => hne '\t' (by decide) he⟩,
    fun he => hne '\n' (by decide) he⟩, fun he => hne '\r' (by decide) he⟩,
    fun he => hne '\x0b' (by decide) he⟩, fun he => hne '\x0c' (by decide) he⟩,
    fun he => hne '\x1c' (by decide) he⟩, fun he => hne '\x1d' (by decide) he⟩,
    fun he => hne '\x1e' (by decide) he⟩, fun he => hne '\x1f' (by decide) he⟩

theorem digit_ne_slash {c : Char} (h : isDigitCh c = true) : c ≠ '/' := by
  intro he
  subst he
  exact Bool.noConfusion h

/-- C2 counterexample: the health body has no `api_key_configured` and no
`client_initialized` key at all, refuting the claimed key set. -/
theorem claim_C2_cex :
    dictGet rootResponse (("api_key_configured").toList) = none ∧
    dictGet rootResponse (("client_initialized").toList) = none := by
  exact ⟨rfl, rfl⟩

/-- C2 (amended): the health endpoint `GET /` always returns exactly the
keys `status`, `service`, `version` (with the fixed values `online`,
`MNIHL Document Extraction API`, `1.0.0`); it reports neither
`api_key_configured` nor `client_initialized`. -/
theorem claim_C2_root_keys :
    rootResponse.map Prod.fst =
      [(("status").toList), (("service").toList), (("version").toList)] ∧
    dictGet rootResponse (("status").toList) = some (JVal.str (("online").toList)) ∧
    dictGet rootResponse (("service").toList) =
      some (JVal.str (("MNIHL Document Extraction API").toList)) ∧
    dictGet rootResponse (("version").toList) = some (JVal.str (("1.0.0").toList)) := by
  exact ⟨rfl, rfl, rfl, rfl⟩

/-- C3 counterexample: the whitespace-only input `"   "` is non-empty and
matches neither date pattern, yet `_validate_date` returns the empty
string (the code strips first and returns the stripped text), refuting
"returns the input unchanged" and "never returns the empty string". -/
theorem claim_C3_cex :
    (("   ").toList ≠ ([] : List Char)) ∧
    matchDDMMYYYY (("   ").toList) = false ∧
    matchDDMMYY (("   ").toList) = false ∧
    validateDate (("   ").toList) "DD/MM/YYYY" = [] ∧
    validateDate (("   ").toList) "DD/MM/YY" = [] := by
  exact ⟨by decide, rfl, rfl, rfl, rfl⟩

/-- C3 (amended): for every date string that is non-empty, carries no
surrounding whitespace, and matches neither the target pattern nor the
convertible pattern, `_validate_date` returns the input unchanged — in
particular never the empty string — under both target formats.  (In
general the code returns the *stripped* input, so inputs whose
non-whitespace core is empty come back empty; see the counterexample.) -/
theorem claim_C3_unmatched_identity (s : List Char) (hne : s ≠ [])
    (hstrip : pyStrip s = s)
    (h4 : matchDDMMYYYY s = false) (h2 : matchDDMMYY s = false) :
    validateDate s "DD/MM/YYYY" = s ∧ validateDate s "DD/MM/YY" = s ∧
    validateDate s "DD/MM/YYYY" ≠ [] ∧ validateDate s "DD/MM/YY" ≠ [] := by
  have hy : validateDate s "DD/MM/YYYY" = s := by
    unfold validateDate
    rw [if_neg hne, hstrip]
    simp [h2, h4]
  have hy2 : validateDate s "DD/MM/YY" = s := by
    unfold validateDate
    rw [if_neg hne, hstrip]
    simp [h2, h4]
  exact ⟨hy, hy2, by rw [hy]; exact hne, by rw [hy2]; exact hne⟩

/-- C3 witness at the spec's own example `"March 1978"`. -/
theorem claim_C3_witness :
    validateDate (("March 1978").toList) "DD/MM/YYYY" = ("March 1978").toList ∧
    validateDate (("March 1978").toList) "DD/MM/YY" = ("March 1978").toList ∧
    validateDate (("March 1978").toList) "DD/MM/YYYY" ≠ [] ∧
    validateDate (("March 1978").toList) "DD/MM/YY" ≠ [] :=
  claim_C3_unmatched_identity (("March 1978").toList) (by decide) (by rfl) (by rfl) (by rfl)

theorem digit_bounds {c : Char} (h : isDigitCh c = true) : 48 ≤ c.toNat ∧ c.toNat ≤ 57 := by
  unfold isDigitCh at h
  have hs := (Bool.and_eq_true _ _).mp h
  exact ⟨of_decide_eq_true hs.1, of_decide_eq_true hs.2⟩

/-- C4: on every `DD/MM/YY` input with target format `DD/MM/YYYY`,
`_validate_date` keeps day, month and the two year digits and prefixes the
century by the fixed pivot — `20` when the two-digit year is at most 30,
`19` otherwise. -/
theorem claim_C4_year_expansion (d1 d2 m1 m2 y1 y2 : Char)
    (h : matchDDMMYY [d1, d2, '/', m1, m2, '/', y1, y2] = true) :
    validateDate [d1, d2, '/', m1, m2, '/', y1, y2] "DD/MM/YYYY" =
      [d1, d2, '/', m1, m2, '/'] ++
        (if 10 * (y1.toNat - 48) + (y2.toNat - 48) ≤ 30
         then '2' :: '0' :: [y1, y2] else '1' :: '9' :: [y1, y2]) := by
  have hdigits : isDigitCh d1 = true ∧ isDigitCh d2 = true ∧ isDigitCh m1 = true ∧
      isDigitCh m2 = true ∧ isDigitCh y1 = true ∧ isDigitCh y2 = true := by
    unfold matchDDMMYY at h
    simp only [Bool.and_eq_true] at h
    exact ⟨h.1.1.1.1.1, h.1.1.1.1.2, h.1.1.1.2, h.1.1.2, h.1.2, h.2⟩
  obtain ⟨hq1, hq2, hq3, hq4, hq5, hq6⟩ := hdigits
  have hstrip : pyStrip [d1, d2, '/', m1, m2, '/', y1, y2] =
      [d1, d2, '/', m1, m2, '/', y1, y2] :=
    pyStrip_of_ends _ ⟨d1, _, rfl, digit_not_ws hq1⟩ ⟨y2, _, rfl, digit_not_ws hq6⟩
  have hm4 : matchDDMMYYYY [d1, d2, '/', m1, m2, '/', y1, y2] = false := rfl
  have hsplit : pySplit '/' [d1, d2, '/', m1, m2, '/', y1, y2] =
      [[d1, d2], [m1, m2], [y1, y2]] := by
    simp [pySplit, digit_ne_slash hq1, digit_ne_slash hq2, digit_ne_slash hq3,
      digit_ne_slash hq4, digit_ne_slash hq5, digit_ne_slash hq6]
  have hnum : digitsToNat [y1, y2] = 10 * (y1.toNat - 48) + (y2.toNat - 48) := by
    simp [digitsToNat]
  have hrender : twoDigitRender (10 * (y1.toNat - 48) + (y2.toNat - 48)) = [y1, y2] := by
    obtain ⟨ha1, ha2⟩ := digit_bounds hq5
    obtain ⟨hb1, hb2⟩ := digit_bounds hq6
    unfold twoDigitRender
    rw [show (10 * (y1.toNat - 48) + (y2.toNat - 48)) / 10 = y1.toNat - 48 by omega,
      show (10 * (y1.toNat - 48) + (y2.toNat - 48)) % 10 = y2.toNat - 48 by omega,
      show 48 + (y1.toNat - 48) = y1.toNat by omega,
      show 48 + (y2.toNat - 48) = y2.toNat by omega,
      Char.ofNat_toNat, Char.ofNat_toNat]
  unfold validateDate
  rw [if_neg (List.cons_ne_nil _ _), hstrip]
  simp only [hm4, h, hsplit, hnum, hrender]
  by_cases hc : 10 * (y1.toNat - 48) + (y2.toNat - 48) ≤ 30 <;> simp [hc]

/-- C4 witness at the spec's two examples. -/
theorem claim_C4_witness :
    validateDate (("24/08/25").toList) "DD/MM/YYYY" = ("24/08/2025").toList ∧
    validateDate (("15/11/95").toList) "DD/MM/YYYY" = ("15/11/1995").toList := by
  constructor
  · exact (claim_C4_year_expansion '2' '4' '0' '8' '2' '5' (by decide)).trans (by decide)
  · exact (claim_C4_year_expansion '1' '5' '1' '1' '9' '5' (by decide)).trans (by decide)

/-- The four extensions the audiogram path accepts. -/
def audiogramExts : List (List Char) :=
  [(("pdf").toList), (("jpg").toList), (("jpeg").toList), (("png").toList)]

theorem audiogramMediaType_unsupported (filename : List Char)
    (h : fileExt filename ∉ audiogramExts) :
    audiogramMediaType filename = Except.error (PyExn.httpExc 400
      ((("Unsupported audiogram file type: ").toList) ++ fileExt filename)) := by
  simp only [audiogramExts, List.mem_cons, List.not_mem_nil, or_false, not_or] at h
  obtain ⟨hpdf, hjpg, hjpeg, hpng⟩ := h
  unfold audiogramMediaType
  rw [if_neg hpdf, if_neg (not_or.mpr ⟨hjpg, hjpeg⟩), if_neg hpng]

theorem extractFromAudiogram_unsupported (filename : List Char)
    (h : fileExt filename ∉ audiogramExts) (oracle : OracleRequest → List Char)
    (content : List Nat) :
    extractFromAudiogram oracle content filename = Except.error (PyExn.httpExc 400
      ((("Unsupported audiogram file type: ").toList) ++ fileExt filename)) := by
  unfold extractFromAudiogram
  rw [audiogramMediaType_unsupported filename h]
  rfl

/-- C7: for every audiogram filename whose extension (in the code's sense:
the last dot-separated piece of the lowercased name) is none of `pdf`,
`jpg`, `jpeg`, `png`, `extract_from_audiogram` fails fast with the
"Unsupported audiogram file type" error — for every file content and every
oracle, so no byte is base64-encoded for the oracle and the oracle is never
consulted. -/
theorem claim_C7_unsupported_ext (filename : List Char)
    (h : fileExt filename ∉ audiogramExts) :
    ∀ (oracle : OracleRequest → List Char) (content : List Nat),
      extractFromAudiogram oracle content filename = Except.error (PyExn.httpExc 400
        ((("Unsupported audiogram file type: ").toList) ++ fileExt filename)) :=
  fun oracle content => extractFromAudiogram_unsupported filename h oracle content

/-- C7 witness at the spec's `.gif` example. -/
theorem claim_C7_witness :
    extractFromAudiogram (fun _ => []) [] (("scan.gif").toList) =
      Except.error (PyExn.httpExc 400 (("Unsupported audiogram file type: gif").toList)) :=
  (claim_C7_unsupported_ext (("scan.gif").toList) (by decide) (fun _ => []) []).trans (by rfl)

/-- C9: an unsupported audiogram extension reaches the caller as HTTP 500,
not 400: the `HTTPException(400)` raised inside `extract_from_audiogram`
is caught by the endpoints' `except Exception` handlers and re-raised as a
500 whose detail embeds the stringified 400 — at `/api/extract/audiogram`
unconditionally, and at `/api/extract` whenever the solicitor half
succeeded (an earlier solicitor failure is a 500 of its own, never a 400). -/
theorem claim_C9_unsupported_surfaces_500 (filename : List Char)
    (h : fileExt filename ∉ audiogramExts) :
    (∀ (oracle : OracleRequest → List Char) (content : List Nat),
      extractAudiogramEndpoint oracle content filename =
        ApiResult.httpError 500 (pyExnStr (PyExn.httpExc 400
          ((("Unsupported audiogram file type: ").toList) ++ fileExt filename)))) ∧
    (∀ (oracle : OracleRequest → List Char) (solContent : List Nat) (solName : List Char)
        (audContent : List Nat),
      (∃ sol, extractFromSolicitorLetter oracle solContent solName = Except.ok sol) →
      extractDataEndpoint oracle solContent solName audContent filename =
        ApiResult.httpError 500 ((("Extraction failed: ").toList) ++
          pyExnStr (PyExn.httpExc 400
            ((("Unsupported audiogram file type: ").toList) ++ fileExt filename)))) := by
  constructor
  · intro oracle content
    unfold extractAudiogramEndpoint
    rw [extractFromAudiogram_unsupported filename h oracle content]
  · intro oracle solContent solName audContent hsol
    obtain ⟨sol, hsol⟩ := hsol
    unfold extractDataEndpoint
    rw [hsol, extractFromAudiogram_unsupported filename h oracle audContent]
    rfl

/-- A well-formed solicitor-letter oracle reply, used to drive witnesses. -/
def goodSolReply : List Char :=
  ("\x7b\"solicitor_ref\": \"806964.001/CGN/CD\", \"name\": \"John William Landels Porter\", \"address\": \"59 Sandleford Lane, Greenham, Thatcham, RG198XQ\", \"dob\": \"10/03/1978\"\x7d").toList

/-- C9 witness: a `.gif` audiogram yields 500 at both endpoints. -/
theorem claim_C9_witness :
    extractAudiogramEndpoint (fun _ => ("x").toList) [] (("chart.gif").toList) =
      ApiResult.httpError 500 (("400: Unsupported audiogram file type: gif").toList) ∧
    extractDataEndpoint (fun _ => goodSolReply) [] (("letter.txt").toList) []
        (("chart.gif").toList) =
      ApiResult.httpError 500
        (("Extraction failed: 400: Unsupported audiogram file type: gif").toList) := by
  have h := claim_C9_unsupported_surfaces_500 (("chart.gif").toList) (by decide)
  constructor
  · exact (h.1 (fun _ => ("x").toList) []).trans (by rfl)
  · exact (h.2 (fun _ => goodSolReply) [] (("letter.txt").toList) [] ⟨_, rfl⟩).trans (by rfl)

/-- C10: extension dispatch is case-insensitive — both extractors lowercase
the filename before looking at it, so dispatching on an already-lowercased
name gives identical results, and `.PDF`, `.PNG`, `.Jpg` behave like their
lowercase forms. -/
theorem claim_C10_case_insensitive (filename : List Char) :
    solicitorIsPdf (pyLower filename) = solicitorIsPdf filename ∧
    fileExt (pyLower filename) = fileExt filename ∧
    audiogramMediaType (pyLower filename) = audiogramMediaType filename ∧
    solicitorIsPdf (("brief.PDF").toList) = true ∧
    audiogramMediaType (("chart.PNG").toList) = Except.ok (("image/png").toList) ∧
    audiogramMediaType (("photo.Jpg").toList) = Except.ok (("image/jpeg").toList) := by
  have h2 : fileExt (pyLower filename) = fileExt filename := by
    unfold fileExt
    rw [pyLower_idem]
  refine ⟨?_, h2, ?_, rfl, rfl, rfl⟩
  · unfold solicitorIsPdf
    rw [pyLower_idem]
  · unfold audiogramMediaType
    rw [h2]

/-- C8 counterexample: the byte `0xFF` is undecodable; the code's
`errors="ignore"` *drops* it (the text equals that of an empty file), it
does not *replace* it with U+FFFD as the claim words it. -/
theorem claim_C8_cex :
    decodeUtf8Ignore [255] = [] ∧
    decodeUtf8Ignore [255] ≠ ['�'] ∧
    mkSolicitorRequest [255] (("letter.txt").toList) =
      mkSolicitorRequest [] (("letter.txt").toList) := by
  exact ⟨rfl, by decide, rfl⟩

/-- C8 (amended): every solicitor-letter file whose lowercased name does
not end in `.pdf` is treated as raw text: the prompt embeds
`decode("utf-8", errors="ignore")` of the bytes — a total best-effort
decode in which invalid bytes are dropped (not replaced) and which never
fails, for all byte inputs. -/
theorem claim_C8_text_decode (content : List Nat) (filename : List Char)
    (h : solicitorIsPdf filename = false) :
    mkSolicitorRequest content filename =
      { modelName := claudeModel, maxTokens := 1000,
        content := [ContentBlock.text
          (solicitorTextPromptPre ++ decodeUtf8Ignore content ++ solicitorTextPromptPost)] } := by
  unfold mkSolicitorRequest
  simp only [h, Bool.false_eq_true, if_false]

/-- C8 witness: a two-byte UTF-8 sequence decodes, a stray `0xFF` is
dropped, and the result is embedded in the text prompt. -/
theorem claim_C8_witness :
    mkSolicitorRequest [195, 169, 255] (("letter.docx").toList) =
      { modelName := claudeModel, maxTokens := 1000,
        content := [ContentBlock.text
          (solicitorTextPromptPre ++ ['é'] ++ solicitorTextPromptPost)] } :=
  (claim_C8_text_decode [195, 169, 255] (("letter.docx").toList) (by rfl)).trans (by rfl)

/-- C1 counterexample: on the unparseable oracle reply `"hello"` both
extractors raise `HTTPException(500, ...)` — neither returns the all-empty
record the claim promises, so the Extraction Service does raise. -/
theorem claim_C1_cex :
    extractFromSolicitorLetter (fun _ => ("hello").toList) [] (("a.txt").toList) =
      Except.error (PyExn.httpExc 500
        (("Failed to parse AI response as JSON. Response: hello").toList)) ∧
    extractFromAudiogram (fun _ => ("hello").toList) [] (("scan.png").toList) =
      Except.error (PyExn.httpExc 500
        (("Failed to parse AI response as JSON. Response: hello").toList)) := by
  exact ⟨rfl, rfl⟩

/-- C1 (amended): for every oracle reply whose cleaned text is not valid
JSON, both extraction operations raise `HTTPException(500)` carrying the
first 200 characters of the cleaned reply (the audiogram one provided its
media type passed, i.e. the failure point is reached); neither degrades to
an all-empty record. -/
theorem claim_C1_parse_failure_raises (reply : List Char)
    (h : jsonLoads (stripPipeline reply) = none) :
    (∀ (content : List Nat) (filename : List Char),
      extractFromSolicitorLetter (fun _ => reply) content filename =
        Except.error (PyExn.httpExc 500
          ((("Failed to parse AI response as JSON. Response: ").toList) ++
            (stripPipeline reply).take 200))) ∧
    (∀ (content : List Nat) (filename : List Char) (mt : List Char),
      audiogramMediaType filename = Except.ok mt →
      extractFromAudiogram (fun _ => reply) content filename =
        Except.error (PyExn.httpExc 500
          ((("Failed to parse AI response as JSON. Response: ").toList) ++
            (stripPipeline reply).take 200))) := by
  have hp : parsePhase reply = Except.error (PyExn.httpExc 500
      ((("Failed to parse AI response as JSON. Response: ").toList) ++
        (stripPipeline reply).take 200)) := by
    unfold parsePhase
    rw [h]
  constructor
  · intro content filename
    unfold extractFromSolicitorLetter
    rw [hp]
    rfl
  · intro content filename mt hmt
    unfold extractFromAudiogram
    rw [hmt]
    show parsePhase reply >>= _ = _
    rw [hp]
    rfl

/-- C1 witness: a second unparseable reply, on the audiogram path with a
supported extension. -/
theorem claim_C1_witness :
    extractFromAudiogram (fun _ => ("not json").toList) [] (("a.jpeg").toList) =
      Except.error (PyExn.httpExc 500
        (("Failed to parse AI response as JSON. Response: not json").toList)) :=
  ((claim_C1_parse_failure_raises (("not json").toList) (by rfl)).2 []
    (("a.jpeg").toList) (("image/jpeg").toList) (by rfl)).trans (by rfl)

/-- C6: wrapping any oracle reply in a markdown code fence — the
language-tagged form or the bare form — leaves the Response Parser's
strip-then-parse step unchanged: the cleaned text is identical, hence so is
the parsed result.  (This holds for *every* text, in particular every valid
JSON object reply.) -/
theorem claim_C6_fence_invariance (t : List Char) :
    stripPipeline (wrapJsonFence t) = stripPipeline t ∧
    stripPipeline (wrapBareFence t) = stripPipeline t ∧
    jsonLoads (stripPipeline (wrapJsonFence t)) = jsonLoads (stripPipeline t) ∧
    jsonLoads (stripPipeline (wrapBareFence t)) = jsonLoads (stripPipeline t) :=
  ⟨stripPipeline_wrapJson t, stripPipeline_wrapBare t,
    congrArg jsonLoads (stripPipeline_wrapJson t),
    congrArg jsonLoads (stripPipeline_wrapBare t)⟩

/-- The five field keys of the combined result, in response order. -/
def fieldNames : List (List Char) :=
  [(("solicitor_ref").toList), (("name").toList), (("address").toList),
   (("dob").toList), (("audiogram_date").toList)]

/-- Whether a parsed JSON value is a string. -/
def jvalIsStr : JVal → Bool
  | JVal.str _ => true
  | _ => false

/-- Oracle for the C5 counterexample: the solicitor call (max_tokens 1000)
gets an object whose `solicitor_ref` is the JSON *number* `5`; the
audiogram call (max_tokens 500) gets a well-formed reply. -/
def c5Oracle : OracleRequest → List Char := fun req =>
  if req.maxTokens = 1000 then
    ("\x7b\"solicitor_ref\": 5, \"name\": \"x\", \"address\": \"y\", \"dob\": \"10/03/1978\"\x7d").toList
  else ("\x7b\"audiogram_date\": \"24/08/25\"\x7d").toList

/-- The solicitor record the C5 counterexample produces. -/
def c5SolDict : List (List Char × JVal) :=
  [((("solicitor_ref").toList), JVal.num (("5").toList)),
   ((("name").toList), JVal.str (("x").toList)),
   ((("address").toList), JVal.str (("y").toList)),
   ((("dob").toList), JVal.str (("10/03/1978").toList))]

/-- The audiogram record the C5 counterexample produces. -/
def c5AudDict : List (List Char × JVal) :=
  [((("audiogram_date").toList), JVal.str (("24/08/25").toList))]

/-- C5 counterexample: a 200 response of `POST /api/extract` whose
`solicitor_ref` field is the JSON number `5` — present, but not a string
(nothing coerces oracle values to strings), with confidence `true`. -/
theorem claim_C5_cex :
    extractDataEndpoint c5Oracle [] (("letter.txt").toList) [] (("audio.png").toList) =
      ApiResult.success (mkCombined c5SolDict c5AudDict) ∧
    dictGet (mkCombined c5SolDict c5AudDict).fields (("solicitor_ref").toList) =
      some (JVal.num (("5").toList)) ∧
    jvalIsStr (JVal.num (("5").toList)) = false ∧
    dictGet (mkCombined c5SolDict c5AudDict).confidence (("solicitor_ref").toList) =
      some true := by
  exact ⟨rfl, rfl, rfl, rfl⟩

theorem fieldOf_confOf (dic : List (List Char × JVal)) (k : List Char)
    (hstr : ∀ w, dictGet dic k = some w → jvalIsStr w = true) :
    ∃ s, fieldOf dic k = JVal.str s ∧ (confOf dic k = true ↔ s ≠ []) := by
  cases hv : dictGet dic k with
  | none =>
    refine ⟨[], ?_, ?_⟩
    · unfold fieldOf; rw [hv]; rfl
    · unfold confOf; rw [hv]; simp
  | some w =>
    have hw := hstr w hv
    cases w with
    | str s =>
      refine ⟨s, ?_, ?_⟩
      · unfold fieldOf; rw [hv]; rfl
      · unfold confOf
        rw [hv]
        show pyTruthy (JVal.str s) = true ↔ s ≠ []
        simp [pyTruthy]
    | num tok => simp [jvalIsStr] at hw
    | boolean b => simp [jvalIsStr] at hw
    | null => simp [jvalIsStr] at hw
    | arr elems => simp [jvalIsStr] at hw
    | obj members => simp [jvalIsStr] at hw

/-- C5 (amended): every 200 response of `POST /api/extract` carries exactly
the five field keys and a confidence map over the same five keys; and
*whenever the field values are strings* (which the prompt demands but
nothing enforces — see the counterexample for a numeric leak), each
confidence value is `true` iff the corresponding field string is
non-empty. -/
theorem claim_C5_result_shape (oracle : OracleRequest → List Char)
    (solContent : List Nat) (solName : List Char) (audContent : List Nat) (audName : List Char)
    (r : CombinedResult)
    (hr : extractDataEndpoint oracle solContent solName audContent audName =
      ApiResult.success r) :
    (r.fields.map Prod.fst = fieldNames ∧ r.confidence.map Prod.fst = fieldNames) ∧
    ((∀ kv ∈ r.fields, jvalIsStr kv.2 = true) →
      ∀ k ∈ fieldNames, ∃ s b, dictGet r.fields k = some (JVal.str s) ∧
        dictGet r.confidence k = some b ∧ (b = true ↔ s ≠ [])) := by
  unfold extractDataEndpoint at hr
  cases hsol : extractFromSolicitorLetter oracle solContent solName with
  | error e =>
    rw [hsol] at hr
    simp only [Bind.bind, Except.bind] at hr
    exact absurd hr (by simp)
  | ok sol =>
    cases haud : extractFromAudiogram oracle audContent audName with
    | error e =>
      rw [hsol, haud] at hr
      simp only [Bind.bind, Except.bind] at hr
      exact absurd hr (by simp)
    | ok aud =>
      rw [hsol, haud] at hr
      simp only [Bind.bind, Except.bind] at hr
      have hrr : r = mkCombined sol aud := by
        cases hr
        rfl
      subst hrr
      refine ⟨⟨rfl, rfl⟩, ?_⟩
      intro hstr k hk
      simp only [fieldNames, List.mem_cons, List.not_mem_nil, or_false] at hk
      have hblock : ∀ (dic : List (List Char × JVal)) (key : List Char),
          (key, fieldOf dic key) ∈ (mkCombined sol aud).fields →
          ∃ s, fieldOf dic key = JVal.str s ∧ (confOf dic key = true ↔ s ≠ []) := by
        intro dic key hmem
        apply fieldOf_confOf
        intro w hw
        have h1 := hstr _ hmem
        unfold fieldOf at h1
        rw [hw] at h1
        simpa using h1
      rcases hk with rfl | rfl | rfl | rfl | rfl
      · obtain ⟨s, hf, hc⟩ := hblock sol (("solicitor_ref").toList)
          (by simp [mkCombined])
        exact ⟨s, confOf sol (("solicitor_ref").toList),
          by simp only [mkCombined, dictGet]; simp; exact hf, by simp [mkCombined, dictGet], hc⟩
      · obtain ⟨s, hf, hc⟩ := hblock sol (("name").toList) (by simp [mkCombined])
        exact ⟨s, confOf sol (("name").toList),
          by simp only [mkCombined, dictGet]; simp; exact hf, by simp [mkCombined, dictGet], hc⟩
      · obtain ⟨s, hf, hc⟩ := hblock sol (("address").toList) (by simp [mkCombined])
        exact ⟨s, confOf sol (("address").toList),
          by simp only [mkCombined, dictGet]; simp; exact hf, by simp [mkCombined, dictGet], hc⟩
      · obtain ⟨s, hf, hc⟩ := hblock sol (("dob").toList) (by simp [mkCombined])
        exact ⟨s, confOf sol (("dob").toList),
          by simp only [mkCombined, dictGet]; simp; exact hf, by simp [mkCombined, dictGet], hc⟩
      · obtain ⟨s, hf, hc⟩ := hblock aud (("audiogram_date").toList) (by simp [mkCombined])
        exact ⟨s, confOf aud (("audiogram_date").toList),
          by simp only [mkCombined, dictGet]; simp; exact hf, by simp [mkCombined, dictGet], hc⟩

/-- A well-formed audiogram oracle reply, for witnesses. -/
def goodAudReply : List Char := ("\x7b\"audiogram_date\": \"24/08/25\"\x7d").toList

/-- Witness oracle answering both calls of the combined endpoint with
well-formed, all-string replies. -/
def c5GoodOracle : OracleRequest → List Char := fun req =>
  if req.maxTokens = 1000 then goodSolReply else goodAudReply

/-- The solicitor record `c5GoodOracle` produces. -/
def c5wSol : List (List Char × JVal) :=
  [((("solicitor_ref").toList), JVal.str (("806964.001/CGN/CD").toList)),
   ((("name").toList), JVal.str (("John William Landels Porter").toList)),
   ((("address").toList), JVal.str (("59 Sandleford Lane, Greenham, Thatcham, RG198XQ").toList)),
   ((("dob").toList), JVal.str (("10/03/1978").toList))]

/-- The audiogram record `c5GoodOracle` produces. -/
def c5wAud : List (List Char × JVal) :=
  [((("audiogram_date").toList), JVal.str (("24/08/25").toList))]

/-- C5 witness: the shape theorem applied to a concrete all-string run of
the combined endpoint, read off at the `name` key. -/
theorem claim_C5_witness :
    ∃ s b, dictGet (mkCombined c5wSol c5wAud).fields (("name").toList) =
        some (JVal.str s) ∧
      dictGet (mkCombined c5wSol c5wAud).confidence (("name").toList) = some b ∧
      (b = true ↔ s ≠ []) :=
  (claim_C5_result_shape c5GoodOracle [] (("letter.txt").toList) [] (("audio.png").toList)
    (mkCombined c5wSol c5wAud) (by rfl)).2 (by decide) (("name").toList) (by decide)

end MnihlApi
